import Mathlib

/-!
Verification development for the CCG Call Center Trainer core.

The definitions below are shallow embeddings of the repository's
TypeScript source: the PCM audio codec (`pcmToBase64` / `decodeAudioData`
in `audioUtils`), the live-call session handlers (`connect`'s `onmessage`
callback, `disconnect`), the evaluation engine (`generateEvaluation`) and
the correction feedback store (`submitCorrection`) of
`src/services/geminiService.ts`.  JavaScript numbers are modelled as
rationals, `Int16Array` element assignment as truncation toward zero
followed by wrapping into the signed 16-bit range, and the browser's
`btoa` / `atob` as standard base64 over latin-1 byte lists.
-/

namespace CCG

/-! ### PCM codec — `pcmToBase64` and `decodeAudioData` (audioUtils) -/

/-- JavaScript `ToIntegerOrInfinity`-style truncation toward zero. -/
def jsTrunc (x : ℚ) : ℤ := if x < 0 then -(-x).floor else x.floor

/-- Wrapping into the signed 16-bit range, as JavaScript `Int16Array`
element assignment performs after truncation. -/
def wrap16 (n : ℤ) : ℤ := (n + 32768) % 65536 - 32768

/-- The per-sample body of `pcmToBase64`'s loop: clamp the sample to
`[-1, 1]`, scale negative values by `0x8000` and non-negative ones by
`0x7FFF`, and store the result into an `Int16Array` slot. -/
def quantizeSample (x : ℚ) : ℤ :=
  let s := max (-1) (min 1 x)
  wrap16 (jsTrunc (if s < 0 then s * 32768 else s * 32767))

/-- Little-endian byte serialization of one `Int16Array` element, as seen
through the `Uint8Array` view that `pcmToBase64` takes of the buffer. -/
def int16ToBytes (q : ℤ) : List ℕ :=
  let m := (q % 65536).toNat
  [m % 256, m / 256]

/-- The byte content of the `Int16Array` buffer built by `pcmToBase64`. -/
def pcmBytes : List ℚ → List ℕ
  | [] => []
  | s :: rest => int16ToBytes (quantizeSample s) ++ pcmBytes rest

/-- The standard base64 alphabet used by the browser's `btoa` / `atob`. -/
def b64Alphabet : List Char :=
  "ABCDEFGHIJKLMNOPQRSTUVWXYZabcdefghijklmnopqrstuvwxyz0123456789+/".toList

/-- Character of one 6-bit group. -/
def sextetToChar (n : ℕ) : Char := b64Alphabet.getD n 'A'

/-- Index of a base64 character in the alphabet; `none` on a character
`atob` would reject. -/
def charToSextet (c : Char) : Option ℕ := b64Alphabet.findIdx? (fun a => a = c)

/-- Base64 encoding of a byte list, as the browser's `btoa`. -/
def btoaChunks : List ℕ → List Char
  | [] => []
  | [b0] =>
      [sextetToChar (b0 / 4), sextetToChar (b0 % 4 * 16), '=', '=']
  | [b0, b1] =>
      [sextetToChar (b0 / 4), sextetToChar (b0 % 4 * 16 + b1 / 16),
       sextetToChar (b1 % 16 * 4), '=']
  | b0 :: b1 :: b2 :: rest =>
      sextetToChar (b0 / 4) :: sextetToChar (b0 % 4 * 16 + b1 / 16) ::
      sextetToChar (b1 % 16 * 4 + b2 / 64) :: sextetToChar (b2 % 64) ::
      btoaChunks rest

/-- Base64 decoding of a character list, as the browser's `atob`;
`none` models the `InvalidCharacterError` it throws on malformed input. -/
def atobChunks : List Char → Option (List ℕ)
  | [] => some []
  | c0 :: c1 :: c2 :: c3 :: rest =>
      if c2 = '=' ∧ c3 = '=' ∧ rest = [] then
        match charToSextet c0, charToSextet c1 with
        | some s0, some s1 => some [s0 * 4 + s1 / 16]
        | _, _ => none
      else if c3 = '=' ∧ rest = [] then
        match charToSextet c0, charToSextet c1, charToSextet c2 with
        | some s0, some s1, some s2 =>
            some [s0 * 4 + s1 / 16, s1 % 16 * 16 + s2 / 4]
        | _, _, _ => none
      else
        match charToSextet c0, charToSextet c1, charToSextet c2,
              charToSextet c3, atobChunks rest with
        | some s0, some s1, some s2, some s3, some tail =>
            some ((s0 * 4 + s1 / 16) :: (s1 % 16 * 16 + s2 / 4) ::
                  (s2 % 4 * 64 + s3) :: tail)
        | _, _, _, _, _ => none
  | _ => none

/-- `pcmToBase64` from audioUtils: clamp/scale/truncate each float sample
into an `Int16Array`, serialize its buffer little-endian, base64-encode. -/
def pcmToBase64 (data : List ℚ) : List Char := btoaChunks (pcmBytes data)

/-- Reading the decoded byte buffer back as an `Int16Array`
(little-endian pairs, two's complement). -/
def bytesToInt16s : List ℕ → List ℤ
  | lo :: hi :: rest =>
      (if lo + 256 * hi < 32768 then ((lo + 256 * hi : ℕ) : ℤ)
       else ((lo + 256 * hi : ℕ) : ℤ) - 65536) :: bytesToInt16s rest
  | _ => []

/-- `decodeAudioData` from audioUtils (mono): base64-decode, reinterpret
the bytes as 16-bit signed samples, rescale by dividing by 32768.
`none` models the exceptions thrown on malformed base64 or an
odd-length buffer (`Int16Array` constructor). -/
def decodeAudioData (wire : List Char) : Option (List ℚ) :=
  match atobChunks wire with
  | none => none
  | some bytes =>
      if bytes.length % 2 = 0 then
        some ((bytesToInt16s bytes).map (fun q : ℤ => (q : ℚ) / 32768))
      else none

/-! ### Data model (src/types.ts) -/

/-- Speaker role of a transcript entry (`'user'` = trainee agent,
`'model'` = AI customer). -/
inductive Role where
  | user
  | model
deriving DecidableEq

/-- One transcript entry of `transcriptionHistory`. -/
structure TranscriptEntry where
  role : Role
  text : String
deriving DecidableEq

/-- `ExternalCriterion` from types.ts: one structured rubric item. -/
structure ExternalCriterion where
  id : Option String
  name : String
  maxPoints : ℚ
  description : Option String
deriving DecidableEq

/-- `CriterionEvaluation` from types.ts; also the runtime shape of the
items the remote generator returns in `criteriaBreakdown` (where
`maxPoints` may be absent despite the static type). -/
structure CriterionEvaluation where
  id : Option String
  name : String
  score : ℚ
  maxPoints : Option ℚ
  comment : String
deriving DecidableEq

/-- The fields of `SimulationConfig` that `generateEvaluation` reads.
The remaining fields (scenario, client, language, …) only feed the prompt
string sent to the opaque remote generator. -/
structure SimulationConfig where
  agentName : String
  evaluationCriteria : String
  structuredCriteria : Option (List ExternalCriterion)
deriving DecidableEq

/-- `EvaluationResult` as actually constructed by `generateEvaluation`
in src/services/geminiService.ts. -/
structure EvaluationResult where
  agentName : String
  totalScore : ℚ
  summary : String
  criteriaBreakdown : List CriterionEvaluation
  transcription : List TranscriptEntry
deriving DecidableEq

/-- Parsed JSON of the structured-generation response
(`JSON.parse(response.text || '{}')`); every field may be absent. -/
structure GenJson where
  totalScore : Option ℚ
  summary : Option String
  criteriaBreakdown : Option (List CriterionEvaluation)
deriving DecidableEq

/-! ### Evaluation engine (`generateEvaluation`, geminiService.ts) -/

/-- JavaScript `x || dflt` on an optional string: absent and `""` both
give the default. -/
def jsOrString (s : Option String) (dflt : String) : String :=
  match s with
  | none => dflt
  | some t => if t = "" then dflt else t

/-- JavaScript `json.totalScore || 0`: absent (and falsy `0`) give `0`. -/
def jsNumOr0 (x : Option ℚ) : ℚ := x.getD 0

/-- The default comment used when a rubric item has no usable response
entry (`"Criterion was not demonstrated during the call."`). -/
def notDemonstratedComment : String := "Criterion was not demonstrated during the call."

/-- The strict-mode reconciliation of `generateEvaluation` (lines
254–264): `config.structuredCriteria.map((input, idx) => ...)`, matching
the response entry first by position, falling back to name, clamping the
score above by the rubric item's `maxPoints` (`Math.min`), and defaulting
a missing entry to score 0. -/
def reconcileCriteria (aiBreakdown : Option (List CriterionEvaluation)) :
    ℕ → List ExternalCriterion → List CriterionEvaluation
  | _, [] => []
  | idx, input :: rest =>
      (match (aiBreakdown.getD []).get? idx <|>
             (aiBreakdown.getD []).find? (fun item => item.name = input.name) with
       | some aiItem =>
           { id := input.id, name := input.name, maxPoints := some input.maxPoints,
             score := min aiItem.score input.maxPoints,
             comment := if aiItem.comment = "" then notDemonstratedComment
                        else aiItem.comment }
       | none =>
           { id := input.id, name := input.name, maxPoints := some input.maxPoints,
             score := 0, comment := notDemonstratedComment }) ::
      reconcileCriteria aiBreakdown (idx + 1) rest

/-- `generateEvaluation` of src/services/geminiService.ts as a function of
the config, the session's accumulated transcript, and the outcome of the
remote structured-generation call; `.error` models any throw caught by the
surrounding `try` (network failure, unparseable JSON). -/
def generateEvaluation (config : SimulationConfig)
    (history : List TranscriptEntry) (response : Except Unit GenJson) :
    EvaluationResult :=
  match response with
  | .error _ =>
      { agentName := config.agentName, totalScore := 0,
        summary := "Error generating evaluation.", criteriaBreakdown := [],
        transcription := history }
  | .ok json =>
      let finalCriteria :=
        match config.structuredCriteria with
        | some sc => reconcileCriteria json.criteriaBreakdown 0 sc
        | none => json.criteriaBreakdown.getD []
      { agentName := config.agentName,
        totalScore := jsNumOr0 json.totalScore,
        summary := jsOrString json.summary "No executive summary available.",
        criteriaBreakdown := finalCriteria,
        transcription := history }

/-! ### Correction feedback store (`submitCorrection`, geminiService.ts) -/

/-- `LearningExample` (geminiService.ts lines 9–15). -/
structure LearningExample where
  criterionName : String
  aiComment : String
  humanComment : String
  scoreDifference : ℚ
  timestamp : ℕ
deriving DecidableEq

/-- The body of `submitCorrection`'s `forEach` loop for one item of the
corrected breakdown: look up the AI's entry of the same name
(`original.criteriaBreakdown.find(...)`); if it exists and differs in
score or comment, the `LearningExample` to unshift, otherwise `none`. -/
def correctionDelta (original : List CriterionEvaluation) (now : ℕ)
    (humanItem : CriterionEvaluation) : Option LearningExample :=
  match original.find? (fun i => i.name = humanItem.name) with
  | none => none
  | some aiItem =>
      if aiItem.score ≠ humanItem.score ∨ aiItem.comment ≠ humanItem.comment then
        some { criterionName := humanItem.name, aiComment := aiItem.comment,
               humanComment := humanItem.comment,
               scoreDifference := humanItem.score - aiItem.score,
               timestamp := now }
      else none

/-- `submitCorrection` (lines 49–71): for each item of the corrected
breakdown whose AI counterpart (matched by name in the original
breakdown) differs in score or comment, unshift a `LearningExample` onto
the store; afterwards truncate the store to its first (most recent) 50
entries. `now` stands for `Date.now()`. -/
def submitCorrection (original corrected : List CriterionEvaluation)
    (history : List LearningExample) (now : ℕ) : List LearningExample :=
  let newHistory := corrected.foldl (fun acc humanItem =>
    match correctionDelta original now humanItem with
    | some ex => ex :: acc
    | none => acc) history
  if newHistory.length > 50 then newHistory.take 50 else newHistory

/-! ### Call session (`connect`'s `onmessage` callback and `disconnect`) -/

/-- Mutable state of a `GeminiService` live session. `sources` holds
identifiers of the currently scheduled `AudioBufferSourceNode`s;
`nextSourceId` generates fresh identifiers for newly created sources. -/
structure GeminiState where
  currentInputTranscription : String
  currentOutputTranscription : String
  transcriptionHistory : List TranscriptEntry
  nextStartTime : ℚ
  sources : List ℕ
  nextSourceId : ℕ
deriving DecidableEq

/-- JavaScript truthiness of `str.trim()`: true iff the string contains a
character that is not whitespace. -/
def trimNonempty (s : String) : Bool := s.data.any (fun c => !c.isWhitespace)

/-- An inbound `LiveServerMessage` as read by the `onmessage` handler.
`interrupted` is the server's interruption signal; the handler never
consults it. -/
structure LiveServerMessage where
  outputTranscriptionText : Option String
  inputTranscriptionText : Option String
  turnComplete : Bool
  interrupted : Bool
  inlineAudioData : Option (List Char)
deriving DecidableEq

/-- The transcription flush duplicated verbatim at lines 137–139 (the
`turnComplete` branch of `onmessage`) and lines 179–181 (`disconnect`):
push each buffer whose trimmed content is non-empty (agent buffer as a
`'user'` entry first, then customer buffer as a `'model'` entry), then
clear both buffers. -/
def flushTranscriptionBuffers (st : GeminiState) : GeminiState :=
  let h1 := if trimNonempty st.currentInputTranscription then
      st.transcriptionHistory ++ [⟨Role.user, st.currentInputTranscription⟩]
    else st.transcriptionHistory
  let h2 := if trimNonempty st.currentOutputTranscription then
      h1 ++ [⟨Role.model, st.currentOutputTranscription⟩]
    else h1
  { st with transcriptionHistory := h2,
            currentInputTranscription := "", currentOutputTranscription := "" }

/-- The `onmessage` callback of `connect` (geminiService.ts lines
133–163): append transcription deltas (output takes precedence via
`else if`), flush both buffers on `turnComplete`, and schedule inline
audio: `nextStartTime = max(nextStartTime, currentTime)` (read before the
decode `await`), start a new source at that time, advance `nextStartTime`
by the decoded buffer's duration and add the source to the active set.
`clock` is `outputAudioContext.currentTime`. The message's `interrupted`
flag is not read anywhere in the handler. -/
def onmessage (st : GeminiState) (msg : LiveServerMessage) (clock : ℚ) : GeminiState :=
  let st1 :=
    match msg.outputTranscriptionText with
    | some t =>
        { st with currentOutputTranscription := st.currentOutputTranscription ++ t }
    | none =>
        match msg.inputTranscriptionText with
        | some t =>
            { st with currentInputTranscription := st.currentInputTranscription ++ t }
        | none => st
  let st2 := if msg.turnComplete then flushTranscriptionBuffers st1 else st1
  match msg.inlineAudioData with
  | some wire =>
      if wire ≠ [] then
        let nst := max st2.nextStartTime clock
        match decodeAudioData wire with
        | some samples =>
            { st2 with nextStartTime := nst + (samples.length : ℚ) / 24000,
                       sources := st2.sources ++ [st2.nextSourceId],
                       nextSourceId := st2.nextSourceId + 1 }
        | none => { st2 with nextStartTime := nst }
      else st2
  | none => st2

/-- `disconnect` (geminiService.ts lines 178–187): flush both
transcription buffers, close the session, disconnect the capture graph,
stop every scheduled source and clear the active-source set.
`nextStartTime` is not modified. -/
def disconnect (st : GeminiState) : GeminiState :=
  let st1 := flushTranscriptionBuffers st
  { st1 with sources := [] }

/-- The playback-scheduling recurrence of the audio branch (lines
143–151) iterated over a sequence of chunks, each given as the pair of
the playback-clock reading when it arrives and its decoded duration.
Returns the sequence of start times passed to `source.start`. -/
def scheduleChunks : ℚ → List (ℚ × ℚ) → List ℚ
  | _, [] => []
  | nextStartTime, (clock, duration) :: rest =>
      let start := max nextStartTime clock
      start :: scheduleChunks (start + duration) rest

/-! ### Codec layer lemmas -/

lemma ratFloor_eq_floor (q : ℚ) : q.floor = ⌊q⌋ := by
  rw [Rat.floor_def', Rat.floor_def]

lemma jsTrunc_of_neg {x : ℚ} (h : x < 0) : jsTrunc x = ⌈x⌉ := by
  rw [jsTrunc, if_pos h, ratFloor_eq_floor, Int.floor_neg, neg_neg]

lemma jsTrunc_of_nonneg {x : ℚ} (h : ¬ x < 0) : jsTrunc x = ⌊x⌋ := by
  rw [jsTrunc, if_neg h, ratFloor_eq_floor]

lemma wrap16_eq_self {n : ℤ} (h1 : -32768 ≤ n) (h2 : n ≤ 32767) : wrap16 n = n := by
  unfold wrap16; omega

lemma sextetToChar_ne_pad : ∀ n, n < 64 → sextetToChar n ≠ '=' := by decide

lemma charToSextet_sextetToChar : ∀ n, n < 64 → charToSextet (sextetToChar n) = some n := by
  decide

lemma atob_btoa : ∀ bytes : List ℕ, (∀ b ∈ bytes, b < 256) →
    atobChunks (btoaChunks bytes) = some bytes
  | [], _ => rfl
  | [b0], h => by
      have hb0 : b0 < 256 := h b0 (by simp)
      simp only [btoaChunks, atobChunks]
      rw [if_pos (by simp),
        charToSextet_sextetToChar _ (by omega),
        charToSextet_sextetToChar _ (by omega)]
      simp only [Option.some.injEq, List.cons.injEq, and_true]
      omega
  | [b0, b1], h => by
      have hb0 : b0 < 256 := h b0 (by simp)
      have hb1 : b1 < 256 := h b1 (by simp)
      simp only [btoaChunks, atobChunks]
      rw [if_neg (fun hc => sextetToChar_ne_pad _ (by omega) hc.1),
        if_pos (by simp),
        charToSextet_sextetToChar _ (by omega),
        charToSextet_sextetToChar _ (by omega),
        charToSextet_sextetToChar _ (by omega)]
      simp only [Option.some.injEq, List.cons.injEq, and_true]
      omega
  | b0 :: b1 :: b2 :: rest, h => by
      have hb0 : b0 < 256 := h b0 (by simp)
      have hb1 : b1 < 256 := h b1 (by simp)
      have hb2 : b2 < 256 := h b2 (by simp)
      have ih := atob_btoa rest (fun b hb => h b (by simp [hb]))
      simp only [btoaChunks, atobChunks]
      rw [if_neg (fun hc => sextetToChar_ne_pad _ (by omega) hc.1),
        if_neg (fun hc => sextetToChar_ne_pad _ (by omega) hc.1),
        charToSextet_sextetToChar _ (by omega),
        charToSextet_sextetToChar _ (by omega),
        charToSextet_sextetToChar _ (by omega),
        charToSextet_sextetToChar _ (by omega),
        ih]
      simp only [Option.some.injEq, List.cons.injEq, and_true]
      omega

lemma wrap16_range (n : ℤ) : -32768 ≤ wrap16 n ∧ wrap16 n ≤ 32767 := by
  unfold wrap16; omega

lemma quantizeSample_range (x : ℚ) :
    -32768 ≤ quantizeSample x ∧ quantizeSample x ≤ 32767 := by
  unfold quantizeSample
  exact wrap16_range _

lemma int16ToBytes_lt {q : ℤ} : ∀ b ∈ int16ToBytes q, b < 256 := by
  intro b hb
  unfold int16ToBytes at hb
  have : ((q % 65536).toNat : ℤ) < 65536 := by omega
  simp only [List.mem_cons, List.mem_singleton, List.not_mem_nil, or_false] at hb
  rcases hb with h | h <;> omega

lemma pcmBytes_lt : ∀ data : List ℚ, ∀ b ∈ pcmBytes data, b < 256
  | [], _, hb => by simp [pcmBytes] at hb
  | s :: rest, b, hb => by
      rw [pcmBytes, List.mem_append] at hb
      rcases hb with h | h
      · exact int16ToBytes_lt b h
      · exact pcmBytes_lt rest b h

lemma pcmBytes_length : ∀ data : List ℚ, (pcmBytes data).length = 2 * data.length
  | [] => rfl
  | s :: rest => by
      rw [pcmBytes, List.length_append, pcmBytes_length rest]
      simp [int16ToBytes]
      omega

lemma bytesToInt16s_int16ToBytes {q : ℤ} (h1 : -32768 ≤ q) (h2 : q ≤ 32767)
    (tail : List ℕ) :
    bytesToInt16s (int16ToBytes q ++ tail) = q :: bytesToInt16s tail := by
  unfold int16ToBytes
  simp only [List.cons_append, List.nil_append, bytesToInt16s]
  congr 1
  split <;> rename_i hlt <;> omega

lemma bytesToInt16s_pcmBytes : ∀ data : List ℚ,
    bytesToInt16s (pcmBytes data) = data.map quantizeSample
  | [] => rfl
  | s :: rest => by
      obtain ⟨hl, hr⟩ := quantizeSample_range s
      rw [pcmBytes, bytesToInt16s_int16ToBytes hl hr, bytesToInt16s_pcmBytes rest,
        List.map_cons]

lemma quantizeSample_eq_of_mem {s : ℚ} (h1 : -1 ≤ s) (h2 : s ≤ 1) :
    quantizeSample s = wrap16 (jsTrunc (if s < 0 then s * 32768 else s * 32767)) := by
  have hclamp : max (-1) (min 1 s) = s := by rw [min_eq_right h2, max_eq_right h1]
  simp only [quantizeSample, hclamp]

lemma quantizeSample_err (s : ℚ) (h1 : -1 ≤ s) (h2 : s ≤ 1) :
    |((quantizeSample s : ℤ) : ℚ) / 32768 - s| < 2 / 32768 := by
  rw [quantizeSample_eq_of_mem h1 h2]
  by_cases hneg : s < 0
  · rw [if_pos hneg]
    have harg : s * 32768 < 0 := by nlinarith
    rw [jsTrunc_of_neg harg]
    have hlo : (-32768 : ℤ) ≤ ⌈s * 32768⌉ := by
      have : ((-32768 : ℤ) : ℚ) ≤ s * 32768 := by push_cast; nlinarith
      calc (-32768 : ℤ) = ⌈((-32768 : ℤ) : ℚ)⌉ := (Int.ceil_intCast _).symm
        _ ≤ ⌈s * 32768⌉ := Int.ceil_mono this
    have hhi : ⌈s * 32768⌉ ≤ 0 := by
      calc ⌈s * 32768⌉ ≤ ⌈(0 : ℚ)⌉ := Int.ceil_mono (le_of_lt harg)
        _ = 0 := Int.ceil_zero
    rw [wrap16_eq_self hlo (by omega)]
    have hle : s * 32768 ≤ (⌈s * 32768⌉ : ℚ) := Int.le_ceil _
    have hlt : (⌈s * 32768⌉ : ℚ) < s * 32768 + 1 := Int.ceil_lt_add_one _
    rw [abs_lt]
    constructor <;> nlinarith
  · rw [if_neg hneg]
    push_neg at hneg
    have harg : ¬ s * 32767 < 0 := by push_neg; nlinarith
    rw [jsTrunc_of_nonneg harg]
    have hlo : (0 : ℤ) ≤ ⌊s * 32767⌋ := Int.le_floor.mpr (by push_neg at harg; push_cast; linarith)
    have hhi : ⌊s * 32767⌋ ≤ 32767 := by
      have : s * 32767 ≤ ((32767 : ℤ) : ℚ) := by push_cast; nlinarith
      calc ⌊s * 32767⌋ ≤ ⌊((32767 : ℤ) : ℚ)⌋ := Int.floor_mono this
        _ = 32767 := Int.floor_intCast _
    rw [wrap16_eq_self (by omega) hhi]
    have hle : (⌊s * 32767⌋ : ℚ) ≤ s * 32767 := Int.floor_le _
    have hlt : s * 32767 < (⌊s * 32767⌋ : ℚ) + 1 := Int.lt_floor_add_one _
    rw [abs_lt]
    constructor <;> nlinarith

lemma pcm_roundtrip (data : List ℚ) :
    decodeAudioData (pcmToBase64 data) =
      some (data.map (fun s => ((quantizeSample s : ℤ) : ℚ) / 32768)) := by
  unfold decodeAudioData pcmToBase64
  rw [atob_btoa _ (pcmBytes_lt data)]
  dsimp only
  rw [if_pos (by rw [pcmBytes_length]; omega), bytesToInt16s_pcmBytes, List.map_map]
  rfl

/-- C4 (amended): decoding the encoded frame yields an array of the same
length whose entries differ from the input samples by strictly less than
2/32768 (the bound 1/32768 claimed in the spec is exceeded for some
non-negative samples because of the asymmetric 0x7FFF scaling). -/
theorem decode_encode_roundtrip (data : List ℚ) (h : ∀ s ∈ data, -1 ≤ s ∧ s ≤ 1) :
    ∃ out, decodeAudioData (pcmToBase64 data) = some out ∧
      out.length = data.length ∧
      List.Forall₂ (fun s o => |o - s| < 2 / 32768) data out := by
  refine ⟨_, pcm_roundtrip data, by simp, ?_⟩
  rw [List.forall₂_map_right_iff]
  rw [List.forall₂_same]
  intro s hs
  exact quantizeSample_err s (h s hs).1 (h s hs).2

lemma quantizeSample_counterexample_value :
    quantizeSample (64001 / 65536 : ℚ) = 31999 := by
  rw [quantizeSample_eq_of_mem (by norm_num) (by norm_num),
    if_neg (by norm_num), jsTrunc_of_nonneg (by norm_num)]
  have hfl : ⌊(64001 / 65536 : ℚ) * 32767⌋ = 31999 := by
    rw [Int.floor_eq_iff]
    constructor <;> norm_num
  rw [hfl, wrap16_eq_self (by norm_num) (by norm_num)]

/-- C4 (counterexample): the in-range sample 64001/65536 round-trips to
31999/32768, an error of 3/65536, strictly greater than the claimed
quantization bound 1/32768. -/
theorem decode_encode_exceeds_claimed_bound :
    decodeAudioData (pcmToBase64 [(64001 / 65536 : ℚ)]) = some [31999 / 32768] ∧
    ¬ |(31999 / 32768 : ℚ) - 64001 / 65536| ≤ 1 / 32768 := by
  constructor
  · rw [pcm_roundtrip]
    rw [List.map_singleton, quantizeSample_counterexample_value]
    norm_num
  · rw [not_le]
    have hval : (31999 / 32768 : ℚ) - 64001 / 65536 = -(3 / 65536) := by norm_num
    rw [hval, abs_neg, abs_of_pos (by norm_num)]
    norm_num

/-- Witness for `decode_encode_roundtrip` at the concrete sample 1/2. -/
theorem decode_encode_roundtrip_witness :
    ∃ out, decodeAudioData (pcmToBase64 [(1 / 2 : ℚ)]) = some out ∧
      out.length = [(1 / 2 : ℚ)].length ∧
      List.Forall₂ (fun s o => |o - s| < 2 / 32768) [(1 / 2 : ℚ)] out :=
  decode_encode_roundtrip [(1 / 2 : ℚ)]
    (by intro s hs; rw [List.mem_singleton] at hs; subst hs; norm_num)

/-! ### Evaluation engine lemmas -/

lemma reconcileCriteria_length (ab : Option (List CriterionEvaluation)) :
    ∀ (idx : ℕ) (sc : List ExternalCriterion),
      (reconcileCriteria ab idx sc).length = sc.length
  | _, [] => rfl
  | idx, input :: rest => by
      rw [reconcileCriteria]
      simp [reconcileCriteria_length ab (idx + 1) rest]

lemma reconcileCriteria_entries (ab : Option (List CriterionEvaluation)) :
    ∀ (idx : ℕ) (sc : List ExternalCriterion), (∀ r ∈ sc, 0 < r.maxPoints) →
      List.Forall₂ (fun input entry =>
        entry.name = input.name ∧ entry.maxPoints = some input.maxPoints ∧
        entry.score ≤ input.maxPoints) sc (reconcileCriteria ab idx sc)
  | _, [], _ => List.Forall₂.nil
  | idx, input :: rest, h => by
      rw [reconcileCriteria]
      refine List.Forall₂.cons ?_
        (reconcileCriteria_entries ab (idx + 1) rest
          (fun r hr => h r (List.mem_cons_of_mem _ hr)))
      cases hfind : (ab.getD []).get? idx <|>
          (ab.getD []).find? (fun item => item.name = input.name) with
      | none =>
          simp only [hfind]
          exact ⟨by simp, by simp, by simpa using le_of_lt (h input (List.mem_cons_self _ _))⟩
      | some aiItem =>
          simp only [hfind]
          exact ⟨by simp, by simp, by simp [min_le_right]⟩

/-- C1 (amended): for every structured rubric (whose items carry positive
`maxPoints`, per the data model) and every generator response, a
successful `generateEvaluation` returns a `criteriaBreakdown` with exactly
one entry per rubric item, in rubric order, carrying the rubric item's
name and `maxPoints`, and each score at most its `maxPoints`.  The
claimed lower bound `0 ≤ score` does not hold: `Math.min(score,
maxPoints)` never clamps from below, so a negative response score passes
through (see the counterexample theorem). -/
theorem generateEvaluation_rubric_shape (config : SimulationConfig)
    (history : List TranscriptEntry) (json : GenJson)
    (sc : List ExternalCriterion) (hsc : config.structuredCriteria = some sc)
    (hpos : ∀ r ∈ sc, 0 < r.maxPoints) :
    (generateEvaluation config history (.ok json)).criteriaBreakdown.length = sc.length ∧
    List.Forall₂ (fun input entry =>
      entry.name = input.name ∧ entry.maxPoints = some input.maxPoints ∧
      entry.score ≤ input.maxPoints) sc
      (generateEvaluation config history (.ok json)).criteriaBreakdown := by
  have hbd : (generateEvaluation config history (.ok json)).criteriaBreakdown =
      reconcileCriteria json.criteriaBreakdown 0 sc := by
    simp [generateEvaluation, hsc]
  rw [hbd]
  exact ⟨reconcileCriteria_length _ 0 sc, reconcileCriteria_entries _ 0 sc hpos⟩

/-- Witness for `generateEvaluation_rubric_shape` on a one-item rubric. -/
theorem generateEvaluation_rubric_shape_witness :
    (generateEvaluation ⟨"agent", "", some [⟨none, "Greeting", 10, none⟩]⟩ []
        (.ok ⟨none, none, none⟩)).criteriaBreakdown.length =
      [(⟨none, "Greeting", 10, none⟩ : ExternalCriterion)].length ∧
    List.Forall₂ (fun (input : ExternalCriterion) (entry : CriterionEvaluation) =>
      entry.name = input.name ∧ entry.maxPoints = some input.maxPoints ∧
      entry.score ≤ input.maxPoints) [⟨none, "Greeting", 10, none⟩]
      (generateEvaluation ⟨"agent", "", some [⟨none, "Greeting", 10, none⟩]⟩ []
        (.ok ⟨none, none, none⟩)).criteriaBreakdown :=
  generateEvaluation_rubric_shape _ [] _ _ rfl
    (by intro r hr; rw [List.mem_singleton] at hr; subst hr; norm_num)

/-- C1 (counterexample): a response entry with score −5 against a rubric
item with `maxPoints` 10 yields a breakdown entry whose score is −5,
outside the claimed range `[0, maxPoints]`. -/
theorem generateEvaluation_negative_score :
    ((generateEvaluation ⟨"agent", "", some [⟨none, "A", 10, none⟩]⟩ []
        (.ok ⟨none, none, some [⟨none, "A", -5, none, "bad"⟩]⟩)).criteriaBreakdown.map
      (fun e => e.score)) = [-5] ∧
    ¬ (0 : ℚ) ≤ -5 := by
  constructor
  · simp only [generateEvaluation, reconcileCriteria, jsNumOr0, jsOrString,
      Option.getD, List.get?, Option.orElse, List.map]
    norm_num [min_def]
  · norm_num

/-- C2 (amended): on the spec's scenario — rubric Greeting/Closing at 10
points each, response containing the single entry
`{name: "Closing", score: 15, comment: "ok"}` and no `totalScore` — the
positional lookup pairs the *first* rubric item (Greeting) with the sole
response entry regardless of its name, so both entries come back with
score 10 (15 clamped to 10) and comment "ok", and `totalScore` is 0
because the engine echoes `json.totalScore || 0` instead of recomputing
50 from the breakdown. -/
theorem generateEvaluation_scenario_result :
    generateEvaluation
        ⟨"agent", "", some [⟨none, "Greeting", 10, none⟩, ⟨none, "Closing", 10, none⟩]⟩ []
        (.ok ⟨none, none, some [⟨none, "Closing", 15, none, "ok"⟩]⟩) =
      ⟨"agent", 0, "No executive summary available.",
        [⟨none, "Greeting", 10, some 10, "ok"⟩, ⟨none, "Closing", 10, some 10, "ok"⟩],
        []⟩ := by
  simp only [generateEvaluation, reconcileCriteria, jsNumOr0, jsOrString, Option.getD,
    List.get?, Option.orElse, List.find?]
  norm_num [min_def]
  exact fun h => absurd h (by decide)

/-- C2 (counterexample): on the spec's scenario the code returns scores
`[10, 10]` and `totalScore` 0, not the claimed `[0, 10]` with
`totalScore` 50. -/
theorem generateEvaluation_scenario_refutes_claim :
    ((generateEvaluation
        ⟨"agent", "", some [⟨none, "Greeting", 10, none⟩, ⟨none, "Closing", 10, none⟩]⟩ []
        (.ok ⟨none, none, some [⟨none, "Closing", 15, none, "ok"⟩]⟩)).criteriaBreakdown.map
      (fun e => e.score)) = [10, 10] ∧
    (generateEvaluation
        ⟨"agent", "", some [⟨none, "Greeting", 10, none⟩, ⟨none, "Closing", 10, none⟩]⟩ []
        (.ok ⟨none, none, some [⟨none, "Closing", 15, none, "ok"⟩]⟩)).totalScore = 0 ∧
    ¬ (generateEvaluation
        ⟨"agent", "", some [⟨none, "Greeting", 10, none⟩, ⟨none, "Closing", 10, none⟩]⟩ []
        (.ok ⟨none, none, some [⟨none, "Closing", 15, none, "ok"⟩]⟩)).totalScore = 50 := by
  have h : generateEvaluation
      ⟨"agent", "", some [⟨none, "Greeting", 10, none⟩, ⟨none, "Closing", 10, none⟩]⟩ []
      (.ok ⟨none, none, some [⟨none, "Closing", 15, none, "ok"⟩]⟩) =
      ⟨"agent", 0, "No executive summary available.",
        [⟨none, "Greeting", 10, some 10, "ok"⟩, ⟨none, "Closing", 10, some 10, "ok"⟩],
        []⟩ := by
    simp only [generateEvaluation, reconcileCriteria, jsNumOr0, jsOrString, Option.getD,
      List.get?, Option.orElse, List.find?]
    norm_num [min_def]
    exact fun hc => absurd hc (by decide)
  rw [h]
  refine ⟨rfl, rfl, by norm_num⟩

/-- C3 (amended): any failure of the generation call produces, without an
exception, the degraded result with `totalScore` 0, the standard error
summary and an *empty* `criteriaBreakdown` — even when a structured
rubric was supplied (the per-item "manual review required" fill the spec
describes exists only in an alternate revision of the service, not in
src/services/geminiService.ts). -/
theorem generateEvaluation_failure_result (config : SimulationConfig)
    (history : List TranscriptEntry) :
    generateEvaluation config history (.error ()) =
      ⟨config.agentName, 0, "Error generating evaluation.", [], history⟩ := rfl

/-- C3 (counterexample): with a one-item structured rubric supplied, a
failed generation call returns an empty breakdown, not one entry per
rubric item with a "manual review required" comment. -/
theorem generateEvaluation_failure_empty_breakdown :
    (generateEvaluation ⟨"agent", "", some [⟨none, "Greeting", 10, none⟩]⟩ []
        (.error ())).criteriaBreakdown = [] ∧
    ¬ (generateEvaluation ⟨"agent", "", some [⟨none, "Greeting", 10, none⟩]⟩ []
        (.error ())).criteriaBreakdown.length = 1 := by
  exact ⟨rfl, by decide⟩

/-- C8 (amended): with an empty transcript `generateEvaluation` still
returns a well-typed result (no exception is possible), with an empty
`transcription`, a non-empty summary string, and a `totalScore` that
echoes the generator's `totalScore || 0` (0 on failure or when absent) —
it is *not* forced to 0 by the empty transcript. -/
theorem generateEvaluation_empty_transcript (config : SimulationConfig)
    (response : Except Unit GenJson) :
    (generateEvaluation config [] response).transcription = [] ∧
    (generateEvaluation config [] response).summary ≠ "" ∧
    (generateEvaluation config [] response).totalScore =
      (match response with
       | .error _ => 0
       | .ok json => jsNumOr0 json.totalScore) := by
  cases response with
  | error e => exact ⟨rfl, by simp [generateEvaluation], rfl⟩
  | ok json =>
      refine ⟨rfl, ?_, rfl⟩
      simp only [generateEvaluation, jsOrString]
      cases hs : json.summary with
      | none => simp
      | some s =>
          by_cases hse : s = "" <;> simp [hse]

/-- Witness for `generateEvaluation_empty_transcript` at a failed call. -/
theorem generateEvaluation_empty_transcript_witness :
    (generateEvaluation ⟨"agent", "", none⟩ [] (.error ())).transcription = [] ∧
    (generateEvaluation ⟨"agent", "", none⟩ [] (.error ())).summary ≠ "" ∧
    (generateEvaluation ⟨"agent", "", none⟩ [] (.error ())).totalScore =
      (match (.error () : Except Unit GenJson) with
       | .error _ => 0
       | .ok json => jsNumOr0 json.totalScore) :=
  generateEvaluation_empty_transcript ⟨"agent", "", none⟩ (.error ())

/-- C8 (counterexample): with an empty transcript but a generator response
carrying `totalScore: 85`, the returned `totalScore` is 85, not the
claimed 0. -/
theorem generateEvaluation_empty_transcript_nonzero_score :
    (generateEvaluation ⟨"agent", "", none⟩ []
        (.ok ⟨some 85, some "s", some []⟩)).totalScore = 85 ∧
    ¬ (generateEvaluation ⟨"agent", "", none⟩ []
        (.ok ⟨some 85, some "s", some []⟩)).totalScore = 0 := by
  refine ⟨rfl, by norm_num [generateEvaluation, jsNumOr0]⟩

/-! ### Call session lemmas -/

/-- C5 (amended): the `onmessage` handler contains no interruption
branch: any message without inline audio — in particular one carrying
only the server's `interrupted` signal — leaves the active-source set and
`nextStartTime` unchanged.  Sources are stopped and cleared only by
`disconnect`, and even `disconnect` does not reset `nextStartTime` to 0. -/
theorem interruption_ignored (st : GeminiState) (msg : LiveServerMessage) (clock : ℚ)
    (haudio : msg.inlineAudioData = none) :
    (onmessage st msg clock).sources = st.sources ∧
    (onmessage st msg clock).nextStartTime = st.nextStartTime ∧
    (disconnect st).sources = [] ∧
    (disconnect st).nextStartTime = st.nextStartTime := by
  obtain ⟨o, i, tc, ir, ad⟩ := msg
  simp only [LiveServerMessage.inlineAudioData] at haudio
  subst haudio
  refine ⟨?_, ?_, rfl, rfl⟩ <;>
    cases o <;> cases i <;> cases tc <;>
      simp [onmessage, flushTranscriptionBuffers]

/-- Witness for `interruption_ignored`: a pure interruption message
arriving while one source is scheduled at `nextStartTime` 5. -/
theorem interruption_ignored_witness :
    (onmessage ⟨"", "", [], 5, [0], 1⟩ ⟨none, none, false, true, none⟩ 0).sources =
      (⟨"", "", [], 5, [0], 1⟩ : GeminiState).sources ∧
    (onmessage ⟨"", "", [], 5, [0], 1⟩ ⟨none, none, false, true, none⟩ 0).nextStartTime =
      (⟨"", "", [], 5, [0], 1⟩ : GeminiState).nextStartTime ∧
    (disconnect ⟨"", "", [], 5, [0], 1⟩).sources = [] ∧
    (disconnect ⟨"", "", [], 5, [0], 1⟩).nextStartTime =
      (⟨"", "", [], 5, [0], 1⟩ : GeminiState).nextStartTime :=
  interruption_ignored _ _ 0 rfl

/-- C5 (counterexample): a server-signaled interruption event processed
mid-playback leaves the session state entirely unchanged — the active
source is still scheduled and `nextStartTime` is still 5, refuting the
claim that both are cleared. -/
theorem interruption_leaves_playback :
    onmessage ⟨"", "", [], 5, [0], 1⟩ ⟨none, none, false, true, none⟩ 0 =
      ⟨"", "", [], 5, [0], 1⟩ ∧
    ¬ ((onmessage ⟨"", "", [], 5, [0], 1⟩ ⟨none, none, false, true, none⟩ 0).sources = [] ∧
       (onmessage ⟨"", "", [], 5, [0], 1⟩ ⟨none, none, false, true, none⟩ 0).nextStartTime = 0) := by
  refine ⟨rfl, ?_⟩
  rintro ⟨hs, -⟩
  rw [show (onmessage ⟨"", "", [], 5, [0], 1⟩ ⟨none, none, false, true, none⟩ 0).sources =
      [0] from rfl] at hs
  exact List.cons_ne_nil 0 [] hs

/-! ### Playback scheduler lemmas -/

lemma scheduleChunks_length : ∀ (nst : ℚ) (chunks : List (ℚ × ℚ)),
    (scheduleChunks nst chunks).length = chunks.length
  | _, [] => rfl
  | nst, (c, d) :: rest => by
      simp [scheduleChunks, scheduleChunks_length (max nst c + d) rest]

lemma scheduleChunks_head (nst : ℚ) (chunks : List (ℚ × ℚ)) :
    (scheduleChunks nst chunks).head? = chunks.head?.map (fun p => max nst p.1) := by
  cases chunks with
  | nil => rfl
  | cons p rest => cases p; rfl

lemma scheduleChunks_chain : ∀ (chunks : List (ℚ × ℚ)) (nst : ℚ),
    List.Chain' (fun a b => b.1 = max (a.1 + a.2.2) b.2.1)
      ((scheduleChunks nst chunks).zip chunks)
  | [], _ => by simp [scheduleChunks]
  | [(c, d)], nst => by simp [scheduleChunks]
  | (c, d) :: (c', d') :: rest, nst => by
      have ih := scheduleChunks_chain ((c', d') :: rest) (max nst c + d)
      simp only [scheduleChunks, List.zip_cons_cons, List.chain'_cons] at ih ⊢
      exact ⟨by simp, ih⟩

/-- C6 (amended): iterating the scheduling recurrence from the initial
`nextStartTime` 0 yields one start time per chunk; the first equals
`max 0 clock₁`, and each later start equals
`max (previous start + previous duration, its own clock reading)` — so
starts never overlap (each is at least the previous start plus the
previous duration), but they are contiguous only while the playback clock
has not overtaken the schedule; a late-arriving chunk starts at its clock
reading instead of the claimed `previous start + previous duration`. -/
theorem scheduleChunks_sequential (chunks : List (ℚ × ℚ)) :
    (scheduleChunks 0 chunks).length = chunks.length ∧
    (scheduleChunks 0 chunks).head? = chunks.head?.map (fun p => max 0 p.1) ∧
    List.Chain' (fun a b => b.1 = max (a.1 + a.2.2) b.2.1)
      ((scheduleChunks 0 chunks).zip chunks) ∧
    List.Chain' (fun a b => a.1 + a.2.2 ≤ b.1)
      ((scheduleChunks 0 chunks).zip chunks) :=
  ⟨scheduleChunks_length 0 chunks, scheduleChunks_head 0 chunks,
   scheduleChunks_chain chunks 0,
   (scheduleChunks_chain chunks 0).imp
     (fun _ _ h => le_of_le_of_eq (le_max_left _ _) h.symm)⟩

/-- C6 (counterexample): two one-second chunks, the second arriving when
the playback clock already reads 5, are scheduled at 0 and 5 — the second
start is not the previous start plus the previous duration (1). -/
theorem scheduleChunks_gap :
    scheduleChunks 0 [((0 : ℚ), (1 : ℚ)), (5, 1)] = [0, 5] ∧
    ¬ ((5 : ℚ) = 0 + 1) := by
  constructor
  · norm_num [scheduleChunks, max_def]
  · norm_num

/-! ### Transcript flush lemmas -/

/-- C7 (amended): if either partial buffer has non-empty *trimmed*
content when `disconnect` is called (the code tests `buffer.trim()`, so a
whitespace-only buffer is dropped — see the counterexample), its full
untrimmed content is appended to the transcript (agent buffer as a
`'user'` entry, customer buffer as a `'model'` entry) and both buffers
are cleared. -/
theorem disconnect_flushes (st : GeminiState) :
    ∃ tail, (disconnect st).transcriptionHistory = st.transcriptionHistory ++ tail ∧
      (trimNonempty st.currentInputTranscription = true →
        TranscriptEntry.mk Role.user st.currentInputTranscription ∈ tail) ∧
      (trimNonempty st.currentOutputTranscription = true →
        TranscriptEntry.mk Role.model st.currentOutputTranscription ∈ tail) ∧
      (disconnect st).currentInputTranscription = "" ∧
      (disconnect st).currentOutputTranscription = "" := by
  refine ⟨(if trimNonempty st.currentInputTranscription then
      [⟨Role.user, st.currentInputTranscription⟩] else []) ++
    (if trimNonempty st.currentOutputTranscription then
      [⟨Role.model, st.currentOutputTranscription⟩] else []), ?_, ?_, ?_, rfl, rfl⟩
  · unfold disconnect flushTranscriptionBuffers
    cases h1 : trimNonempty st.currentInputTranscription <;>
      cases h2 : trimNonempty st.currentOutputTranscription <;>
        simp [h1, h2]
  · intro h1; simp [h1]
  · intro h2; simp [h2]

/-- Witness for `disconnect_flushes` on a state with both buffers
non-trivially filled. -/
theorem disconnect_flushes_witness :
    trimNonempty "hello" = true ∧
    ∃ tail, (disconnect ⟨"hello", "hi", [], 3, [7], 9⟩).transcriptionHistory =
        (⟨"hello", "hi", [], 3, [7], 9⟩ : GeminiState).transcriptionHistory ++ tail ∧
      (trimNonempty (⟨"hello", "hi", [], 3, [7], 9⟩ : GeminiState).currentInputTranscription = true →
        TranscriptEntry.mk Role.user "hello" ∈ tail) ∧
      (trimNonempty (⟨"hello", "hi", [], 3, [7], 9⟩ : GeminiState).currentOutputTranscription = true →
        TranscriptEntry.mk Role.model "hi" ∈ tail) ∧
      (disconnect ⟨"hello", "hi", [], 3, [7], 9⟩).currentInputTranscription = "" ∧
      (disconnect ⟨"hello", "hi", [], 3, [7], 9⟩).currentOutputTranscription = "" :=
  ⟨by decide, disconnect_flushes _⟩

/-- C7 (counterexample): a whitespace-only (hence non-empty) agent buffer
is dropped by `disconnect`: nothing is appended to the transcript. -/
theorem disconnect_drops_whitespace_buffer :
    (⟨" ", "", [], 0, [], 0⟩ : GeminiState).currentInputTranscription ≠ "" ∧
    (disconnect ⟨" ", "", [], 0, [], 0⟩).transcriptionHistory = [] := by
  refine ⟨by decide, rfl⟩

lemma flushTranscriptionBuffers_both (st : GeminiState)
    (h1 : trimNonempty st.currentInputTranscription = true)
    (h2 : trimNonempty st.currentOutputTranscription = true) :
    (flushTranscriptionBuffers st).transcriptionHistory =
      st.transcriptionHistory ++
        [⟨Role.user, st.currentInputTranscription⟩,
         ⟨Role.model, st.currentOutputTranscription⟩] := by
  simp [flushTranscriptionBuffers, h1, h2]

lemma onmessage_history_turnComplete (st : GeminiState) (msg : LiveServerMessage)
    (clock : ℚ) (ho : msg.outputTranscriptionText = none)
    (hi : msg.inputTranscriptionText = none) (htc : msg.turnComplete = true) :
    (onmessage st msg clock).transcriptionHistory =
      (flushTranscriptionBuffers st).transcriptionHistory := by
  obtain ⟨o, i, tc, ir, ad⟩ := msg
  simp only [LiveServerMessage.outputTranscriptionText,
    LiveServerMessage.inputTranscriptionText, LiveServerMessage.turnComplete] at ho hi htc
  subst ho; subst hi; subst htc
  simp only [onmessage]
  cases ad with
  | none => rfl
  | some wire =>
      by_cases hw : wire = []
      · simp [hw]
      · simp only [hw, ne_eq, not_false_eq_true, if_true]
        cases hdec : decodeAudioData wire <;> simp [hdec]

/-- C10 (confirmed): whenever a turn-complete event (with no transcription
delta of its own) or the final flush in `disconnect` fires while both
partial buffers have non-empty trimmed content, exactly the two entries
are appended, always agent (`'user'`) immediately before customer
(`'model'`), regardless of the order the partial text arrived. -/
theorem turnComplete_fixed_order :
    (∀ (st : GeminiState) (msg : LiveServerMessage) (clock : ℚ),
      msg.outputTranscriptionText = none →
      msg.inputTranscriptionText = none →
      msg.turnComplete = true →
      trimNonempty st.currentInputTranscription = true →
      trimNonempty st.currentOutputTranscription = true →
      (onmessage st msg clock).transcriptionHistory =
        st.transcriptionHistory ++
          [⟨Role.user, st.currentInputTranscription⟩,
           ⟨Role.model, st.currentOutputTranscription⟩]) ∧
    (∀ st : GeminiState,
      trimNonempty st.currentInputTranscription = true →
      trimNonempty st.currentOutputTranscription = true →
      (disconnect st).transcriptionHistory =
        st.transcriptionHistory ++
          [⟨Role.user, st.currentInputTranscription⟩,
           ⟨Role.model, st.currentOutputTranscription⟩]) := by
  constructor
  · intro st msg clock ho hi htc h1 h2
    rw [onmessage_history_turnComplete st msg clock ho hi htc,
      flushTranscriptionBuffers_both st h1 h2]
  · intro st h1 h2
    show (flushTranscriptionBuffers st).transcriptionHistory = _
    exact flushTranscriptionBuffers_both st h1 h2

/-- Witness for `turnComplete_fixed_order` on a state with both buffers
filled, for both the turn-complete event and the disconnect flush. -/
theorem turnComplete_fixed_order_witness :
    (onmessage ⟨"hello", "hi", [], 0, [], 0⟩ ⟨none, none, true, false, none⟩
        0).transcriptionHistory =
      (⟨"hello", "hi", [], 0, [], 0⟩ : GeminiState).transcriptionHistory ++
        [⟨Role.user, "hello"⟩, ⟨Role.model, "hi"⟩] ∧
    (disconnect ⟨"hello", "hi", [], 0, [], 0⟩).transcriptionHistory =
      (⟨"hello", "hi", [], 0, [], 0⟩ : GeminiState).transcriptionHistory ++
        [⟨Role.user, "hello"⟩, ⟨Role.model, "hi"⟩] :=
  ⟨turnComplete_fixed_order.1 ⟨"hello", "hi", [], 0, [], 0⟩
      ⟨none, none, true, false, none⟩ 0 rfl rfl rfl (by decide) (by decide),
   turnComplete_fixed_order.2 ⟨"hello", "hi", [], 0, [], 0⟩ (by decide) (by decide)⟩

/-! ### Correction store lemmas -/

lemma correction_foldl_eq (original : List CriterionEvaluation) (now : ℕ) :
    ∀ (corrected : List CriterionEvaluation) (acc : List LearningExample),
      corrected.foldl (fun acc humanItem =>
        match correctionDelta original now humanItem with
        | some ex => ex :: acc
        | none => acc) acc =
      (corrected.filterMap (correctionDelta original now)).reverse ++ acc
  | [], acc => rfl
  | h :: t, acc => by
      rw [List.foldl_cons, List.filterMap_cons]
      cases hd : correctionDelta original now h with
      | none =>
          simp only [hd]
          exact correction_foldl_eq original now t acc
      | some e =>
          simp only [hd]
          rw [correction_foldl_eq original now t (e :: acc), List.reverse_cons,
            List.append_assoc]
          rfl

lemma correctionDelta_name {original : List CriterionEvaluation} {now : ℕ}
    {h : CriterionEvaluation} {e : LearningExample}
    (hd : correctionDelta original now h = some e) : e.criterionName = h.name := by
  unfold correctionDelta at hd
  cases hf : original.find? (fun i => i.name = h.name) with
  | none => simp only [hf] at hd; exact Option.noConfusion hd
  | some ai =>
      simp only [hf] at hd
      by_cases hdiff : ai.score ≠ h.score ∨ ai.comment ≠ h.comment
      · rw [if_pos hdiff, Option.some.injEq] at hd
        rw [← hd]
      · rw [if_neg hdiff] at hd; cases hd

lemma correctionDelta_isSome_iff (original : List CriterionEvaluation) (now : ℕ)
    (hnodupO : (original.map (fun e => e.name)).Nodup) (h : CriterionEvaluation) :
    (correctionDelta original now h).isSome = true ↔
      ∃ ai ∈ original, ai.name = h.name ∧
        (ai.score ≠ h.score ∨ ai.comment ≠ h.comment) := by
  unfold correctionDelta
  cases hf : original.find? (fun i => i.name = h.name) with
  | none =>
      simp only [hf, Option.isSome_none, Bool.false_eq_true, false_iff]
      rintro ⟨ai, hmem, hname, -⟩
      have hsome : (original.find? (fun i => i.name = h.name)).isSome = true :=
        List.find?_isSome.mpr ⟨ai, hmem, by simp [hname]⟩
      rw [hf] at hsome; cases hsome
  | some ai =>
      simp only [hf]
      have hmem' : ai ∈ original := List.mem_of_find?_eq_some hf
      have hname' : ai.name = h.name := by simpa using List.find?_some hf
      by_cases hdiff : ai.score ≠ h.score ∨ ai.comment ≠ h.comment
      · rw [if_pos hdiff]
        simp only [Option.isSome_some, true_iff]
        exact ⟨ai, hmem', hname', hdiff⟩
      · rw [if_neg hdiff]
        simp only [Option.isSome_none, Bool.false_eq_true, false_iff]
        rintro ⟨ai2, hmem2, hname2, hdiff2⟩
        have : ai2 = ai :=
          List.inj_on_of_nodup_map hnodupO hmem2 hmem' (by rw [hname2, hname'])
        subst this
        exact hdiff hdiff2

lemma countP_filterMap_delta (original : List CriterionEvaluation) (now : ℕ) :
    ∀ (corrected : List CriterionEvaluation) (n : String),
      (corrected.filterMap (correctionDelta original now)).countP
          (fun e => decide (e.criterionName = n)) =
        corrected.countP (fun h =>
          (correctionDelta original now h).isSome && decide (h.name = n))
  | [], _ => rfl
  | h :: t, n => by
      rw [List.filterMap_cons, List.countP_cons]
      cases hd : correctionDelta original now h with
      | none =>
          simp only [hd]
          rw [countP_filterMap_delta original now t n]
          simp
      | some e =>
          simp only [hd]
          rw [List.countP_cons, countP_filterMap_delta original now t n]
          have hen : e.criterionName = h.name := correctionDelta_name hd
          simp [hen]

lemma countP_name_unique :
    ∀ (corrected : List CriterionEvaluation),
      ((corrected.map (fun e => e.name)).Nodup) →
      ∀ (q : CriterionEvaluation → Bool) (n : String),
        corrected.countP (fun h => q h && decide (h.name = n)) =
          if ∃ h ∈ corrected, h.name = n ∧ q h = true then 1 else 0
  | [], _, q, n => by simp
  | h :: t, hnd, q, n => by
      rw [List.map_cons, List.nodup_cons] at hnd
      obtain ⟨hnotin, hndt⟩ := hnd
      rw [List.countP_cons, countP_name_unique t hndt q n]
      by_cases hn : h.name = n
      · have ht0 : ¬ ∃ x ∈ t, x.name = n ∧ q x = true := by
          rintro ⟨x, hx, hxn, -⟩
          exact hnotin (by rw [← hn] at hxn; exact hxn ▸ List.mem_map_of_mem _ hx)
        have hhead : (∃ x ∈ h :: t, x.name = n ∧ q x = true) ↔ q h = true := by
          constructor
          · rintro ⟨x, hx, hxn, hxq⟩
            rcases List.mem_cons.mp hx with rfl | hxt
            · exact hxq
            · exact absurd ⟨x, hxt, hxn, hxq⟩ ht0
          · intro hq
            exact ⟨h, List.mem_cons_self _ _, hn, hq⟩
        rw [if_neg ht0, if_congr hhead rfl rfl]
        by_cases hq : q h = true
        · rw [if_pos hq, if_pos (show (q h && decide (h.name = n)) = true by simp [hq, hn])]
        · have hhne : ¬ ((q h && decide (h.name = n)) = true) := by
            intro hc
            rw [Bool.and_eq_true] at hc
            exact hq hc.1
          rw [if_neg hq, if_neg hhne]
      · have hhead : (∃ x ∈ h :: t, x.name = n ∧ q x = true) ↔
            ∃ x ∈ t, x.name = n ∧ q x = true := by
          constructor
          · rintro ⟨x, hx, hxn, hxq⟩
            rcases List.mem_cons.mp hx with rfl | hxt
            · exact absurd hxn hn
            · exact ⟨x, hxt, hxn, hxq⟩
          · rintro ⟨x, hxt, hxn, hxq⟩
            exact ⟨x, List.mem_cons_of_mem _ hxt, hxn, hxq⟩
        have hhne : ¬ ((q h && decide (h.name = n)) = true) := by
          intro hc
          rw [Bool.and_eq_true, decide_eq_true_iff] at hc
          exact hn hc.2
        rw [if_congr hhead rfl rfl, if_neg hhne]
        simp

/-- C9 (confirmed): `submitCorrection` prepends one `LearningExample`
exactly for each criterion name present in both breakdowns whose score or
comment differs (breakdown names are taken to be distinct, as the claim's
by-name matching presumes), then keeps at most the 50 most recent entries
(the oldest, at the back of the store, dropped first); identical
breakdowns append nothing. -/
theorem submitCorrection_appends_diffs (original corrected : List CriterionEvaluation)
    (history : List LearningExample) (now : ℕ)
    (hnodupC : (corrected.map (fun e => e.name)).Nodup)
    (hnodupO : (original.map (fun e => e.name)).Nodup)
    (hhist : history.length ≤ 50) :
    submitCorrection original corrected history now =
      ((corrected.filterMap (correctionDelta original now)).reverse ++ history).take 50 ∧
    (∀ n : String,
      (corrected.filterMap (correctionDelta original now)).countP
          (fun e => decide (e.criterionName = n)) =
        if ∃ hI ∈ corrected, hI.name = n ∧ ∃ ai ∈ original, ai.name = hI.name ∧
            (ai.score ≠ hI.score ∨ ai.comment ≠ hI.comment) then 1 else 0) ∧
    (submitCorrection original corrected history now).length ≤ 50 ∧
    (corrected = original → submitCorrection original corrected history now = history) := by
  have hfold : submitCorrection original corrected history now =
      ((corrected.filterMap (correctionDelta original now)).reverse ++ history).take 50 := by
    unfold submitCorrection
    rw [correction_foldl_eq original now corrected history]
    by_cases hlen :
        ((corrected.filterMap (correctionDelta original now)).reverse ++ history).length > 50
    · rw [if_pos hlen]
    · rw [if_neg hlen, List.take_of_length_le (by omega)]
  refine ⟨hfold, ?_, ?_, ?_⟩
  · intro n
    rw [countP_filterMap_delta original now corrected n]
    have hcong : corrected.countP (fun h =>
        (correctionDelta original now h).isSome && decide (h.name = n)) =
        corrected.countP (fun h =>
          decide (∃ ai ∈ original, ai.name = h.name ∧
            (ai.score ≠ h.score ∨ ai.comment ≠ h.comment)) && decide (h.name = n)) := by
      apply List.countP_congr
      intro x _
      simp only [Bool.and_eq_true, decide_eq_true_iff]
      rw [correctionDelta_isSome_iff original now hnodupO x]
    rw [hcong, countP_name_unique corrected hnodupC _ n]
    exact if_congr (by simp only [decide_eq_true_iff]) rfl rfl
  · rw [hfold, List.length_take]
    omega
  · intro heq
    subst heq
    have hnil : corrected.filterMap (correctionDelta corrected now) = [] := by
      rw [List.filterMap_eq_nil_iff]
      intro h hmem
      unfold correctionDelta
      cases hf : corrected.find? (fun i => i.name = h.name) with
      | none => simp only [hf]
      | some ai =>
          simp only [hf]
          have hmem' : ai ∈ corrected := List.mem_of_find?_eq_some hf
          have hname' : ai.name = h.name := by simpa using List.find?_some hf
          have : ai = h := List.inj_on_of_nodup_map hnodupO hmem' hmem hname'
          subst this
          rw [if_neg (by simp)]
    rw [hfold, hnil, List.reverse_nil, List.nil_append,
      List.take_of_length_le hhist]

/-- Witness for `submitCorrection_appends_diffs`: a single criterion whose
human score differs from the AI's. -/
theorem submitCorrection_witness :
    submitCorrection [⟨none, "A", 5, some 10, "fine"⟩] [⟨none, "A", 7, some 10, "fine"⟩]
        [] 0 =
      ((([⟨none, "A", 7, some 10, "fine"⟩] : List CriterionEvaluation).filterMap
          (correctionDelta [⟨none, "A", 5, some 10, "fine"⟩] 0)).reverse ++
        ([] : List LearningExample)).take 50 ∧
    (submitCorrection [⟨none, "A", 5, some 10, "fine"⟩] [⟨none, "A", 7, some 10, "fine"⟩]
        [] 0).length ≤ 50 :=
  ⟨(submitCorrection_appends_diffs _ _ _ _ (by simp) (by simp) (by simp)).1,
   (submitCorrection_appends_diffs _ _ _ _ (by simp) (by simp) (by simp)).2.2.1⟩

end CCG
